import Mathlib

/-!
Shallow embedding of the queue/transfer core of `arcade_downloader.py`
(Batocera Arcade Game Downloader).

External effects (the SSH transport, the SCP copy, the remote `wget`, the
HTTP download, the local filesystem) are abstracted into an `Oracle` of
per-call outcomes and an explicit trace of `Action`s, so that the control
flow of the Python functions can be reproduced faithfully: which calls are
made, in which order, and how their results feed the queue's status updates.
The queue file is modelled as an `Option Json` field holding the document
that `json.dump` would have written.
-/

namespace Arcade

/-- Queue item status strings used by the source: `'pending'`, `'completed'`,
`'failed'`. -/
inductive Status where
  | pending
  | completed
  | failed
deriving DecidableEq

/-- One entry of `DownloadQueue.queue`: the dict
`{'url': ..., 'system': ..., 'filename': ..., 'status': ...}` built by
`DownloadQueue.add`. -/
structure QueueItem where
  url : String
  system : String
  filename : String
  status : Status
deriving DecidableEq

/-- JSON documents, as far as the queue file needs them (`json.dump` /
`json.load` of a list of string-valued dicts). -/
inductive Json where
  | str : String → Json
  | arr : List Json → Json
  | obj : List (String × Json) → Json

/-- The part of `s` strictly before the first occurrence of `c`
(all of `s` when `c` does not occur) — Python `s.split(c, 1)[0]`. -/
def beforeChar (c : Char) (s : String) : String :=
  String.mk (s.toList.takeWhile (fun x => x ≠ c))

/-- The suffix of `l` after the last occurrence of `sep` (all of `l` when
`sep` does not occur). -/
def afterLast (sep : Char) (l : List Char) : List Char :=
  l.foldl (fun acc c => if c = sep then [] else acc ++ [c]) []

/-- `os.path.basename` on POSIX: the part of the path after the last slash
(`p[p.rfind('/') + 1:]`). -/
def basename (p : String) : String :=
  String.mk (afterLast '/' p.toList)

/-- Characters allowed in a URL scheme by `urllib.parse`. -/
def isSchemeChar (c : Char) : Bool :=
  c.isAlphanum || c = '+' || c = '-' || c = '.'

/-- `urllib.parse.urlsplit` scheme handling: when the text before the first
colon is a valid scheme (nonempty, letter first, scheme characters only),
drop it together with the colon; otherwise leave the URL unchanged. -/
def splitScheme (url : String) : String :=
  let cs := url.toList
  let before := cs.takeWhile (fun c => c ≠ ':')
  if before.length < cs.length then
    if before.length > 0 && before.all isSchemeChar && (before.headD '0').isAlpha then
      String.mk (cs.drop (before.length + 1))
    else url
  else url

/-- `urllib.parse.urlsplit` netloc handling: after the scheme, a leading
`//` introduces the network location, which extends to the next `/`, `?`
or `#` (or to the end of the string). -/
def dropNetloc (s : String) : String :=
  match s.toList with
  | '/' :: '/' :: rest =>
    String.mk (rest.dropWhile (fun c => c ≠ '/' && c ≠ '?' && c ≠ '#'))
  | _ => s

/-- `urllib.parse.urlparse` params handling: a `;params` suffix of the last
path segment is split off (`find(';', rfind('/'))`). -/
def splitParams (p : String) : String :=
  let cs := p.toList
  let seg := afterLast '/' cs
  String.mk (cs.take (cs.length - seg.length) ++ seg.takeWhile (fun c => c ≠ ';'))

/-- `urlparse(url).path`: strip the scheme, then the netloc, then the
fragment (first `#`), then the query (first `?`), then the params. -/
def urlparse_path (url : String) : String :=
  splitParams (beforeChar '?' (beforeChar '#' (dropNetloc (splitScheme url))))

/-- The expression `filename or os.path.basename(urlparse(url).path)` from
`DownloadQueue.add` (and the equivalent `if not filename:` in
`download_to_batocera`): a missing or empty (falsy) filename is replaced by
the basename of the URL's path. -/
def derive_filename (url : String) (filename : Option String) : String :=
  match filename with
  | some f => if f = "" then basename (urlparse_path url) else f
  | none => basename (urlparse_path url)

/-- Serialization of a status to its JSON string. -/
def encodeStatus : Status → String
  | Status.pending => "pending"
  | Status.completed => "completed"
  | Status.failed => "failed"

/-- Parse a status string back into the enum. -/
def decodeStatus (s : String) : Option Status :=
  if s = "pending" then some Status.pending
  else if s = "completed" then some Status.completed
  else if s = "failed" then some Status.failed
  else none

/-- Key lookup in a JSON object's field list. -/
def getField : List (String × Json) → String → Option Json
  | [], _ => none
  | (k, v) :: rest, key => if k = key then some v else getField rest key

/-- The JSON object `json.dump` writes for one queue item. -/
def encodeItem (i : QueueItem) : Json :=
  Json.obj [("url", Json.str i.url), ("system", Json.str i.system),
            ("filename", Json.str i.filename), ("status", Json.str (encodeStatus i.status))]

/-- Extract a JSON string value. -/
def asStr : Option Json → Option String
  | some (Json.str s) => some s
  | _ => none

/-- Read one queue item back from its JSON object. -/
def decodeItem (j : Json) : Option QueueItem :=
  match j with
  | Json.obj fields =>
    match asStr (getField fields "url"), asStr (getField fields "system"),
          asStr (getField fields "filename"),
          (asStr (getField fields "status")).bind decodeStatus with
    | some u, some sys, some f, some st =>
      some { url := u, system := sys, filename := f, status := st }
    | _, _, _, _ => none
  | _ => none

/-- Read a list of queue items back from a list of JSON objects. -/
def decodeItems : List Json → Option (List QueueItem)
  | [] => some []
  | j :: rest =>
    match decodeItem j, decodeItems rest with
    | some i, some is => some (i :: is)
    | _, _ => none

/-- The JSON document `save_queue` writes: the entire queue as a JSON array. -/
def encodeQueue (q : List QueueItem) : Json :=
  Json.arr (q.map encodeItem)

/-- Read a whole queue document. -/
def decodeQueue (j : Json) : Option (List QueueItem) :=
  match j with
  | Json.arr js => decodeItems js
  | _ => none

/-- `DownloadQueue` state: the in-memory `self.queue` list and the contents
of the queue file (`none` = file absent). -/
structure DownloadQueue where
  queue : List QueueItem
  file : Option Json

/-- `DownloadQueue.save_queue`: `json.dump(self.queue, f)` — overwrite the
queue file with the full current queue. -/
def save_queue (s : DownloadQueue) : DownloadQueue :=
  { s with file := some (encodeQueue s.queue) }

/-- `DownloadQueue.load_queue`: if the queue file exists, parse it; with no
file the queue keeps its initial value `[]`. -/
def load_queue (file : Option Json) : Option (List QueueItem) :=
  match file with
  | none => some []
  | some j => decodeQueue j

/-- `DownloadQueue.add`: build the item dict with status `'pending'` and
filename `filename or os.path.basename(urlparse(url).path)`, append it,
and save the queue. -/
def add (s : DownloadQueue) (url system : String) (filename : Option String) : DownloadQueue :=
  save_queue { s with
    queue := s.queue ++
      [{ url := url, system := system, filename := derive_filename url filename,
         status := Status.pending }] }

/-- `DownloadQueue.clear_completed`: keep items whose status is not
`'completed'`, then save the queue. -/
def clear_completed (s : DownloadQueue) : DownloadQueue :=
  save_queue { s with queue := s.queue.filter (fun i => decide (i.status ≠ Status.completed)) }

/-- State of the paramiko client object held in `self.ssh_client`:
`connected` when `.connect(...)` returned, `unconnected` when the object
exists but no session was established (the `.connect` call raised). -/
inductive SSHClient where
  | connected
  | unconnected
deriving DecidableEq

/-- `BatoceraManager` fields, as set by `__init__`. -/
structure BatoceraManager where
  host : String
  username : String
  password : String
  port : Nat
  ssh_client : Option SSHClient
  rom_base_path : String
deriving DecidableEq

/-- `BatoceraManager.__init__`: `ssh_client = None`,
`rom_base_path = '/userdata/roms'`. -/
def BatoceraManager.make (host username password : String) (port : Nat) : BatoceraManager :=
  { host := host, username := username, password := password, port := port,
    ssh_client := none, rom_base_path := "/userdata/roms" }

/-- `BatoceraManager.connect`: the source first assigns
`self.ssh_client = paramiko.SSHClient()` and only then calls
`self.ssh_client.connect(...)` inside the `try`. When the `.connect` call
raises (`paramiko_ok = false`) the `except` branch returns `False`, but
`self.ssh_client` keeps the freshly created, session-less client object. -/
def connect (m : BatoceraManager) (paramiko_ok : Bool) : BatoceraManager × Bool :=
  let m' := { m with
    ssh_client := some (if paramiko_ok then SSHClient.connected else SSHClient.unconnected) }
  (m', paramiko_ok)

/-- What `BatoceraManager.execute_command` does before running anything:
either the `if not self.ssh_client: raise ConnectionError(...)` guard fires,
or control is handed to `self.ssh_client.exec_command` in whatever state
that client object is. -/
inductive ExecOutcome where
  | connectionError
  | delegated (client : SSHClient)
deriving DecidableEq

/-- `BatoceraManager.execute_command`: raise `ConnectionError` exactly when
`self.ssh_client` is `None`; otherwise delegate to the stored client. -/
def execute_command (m : BatoceraManager) (_command : String) : ExecOutcome :=
  match m.ssh_client with
  | none => ExecOutcome.connectionError
  | some c => ExecOutcome.delegated c

/-- Externally observable calls made while processing a queue item. The
`copy` action records the SCP outcome that `transfer_file` observes — and
swallows: its `except` branch only prints, so the outcome never reaches the
caller. -/
inductive Action where
  | download (url local_path : String)
  | createDir (system : String)
  | copy (local_path remote_path : String) (ok : Bool)
  | removeLocal (path : String)
  | wget (url remote_path : String)
deriving DecidableEq

/-- Outcomes of the external calls: whether
`ArchiveOrgSearch.download_file(url, local_path)` returns `True`, whether
the SCP `put` inside `transfer_file` succeeds, and the exit code of the
remote `wget` command. -/
structure Oracle where
  downloadOk : String → String → Bool
  copyOk : String → String → Bool
  wgetCode : String → String → Nat

/-- `BatoceraManager.download_to_batocera` (the direct strategy): rederive
the filename when falsy, ensure the system directory exists, then run
`wget -O '<remote_path>' '<url>'` remotely; return `code == 0`. -/
def download_to_batocera (o : Oracle) (rom_base url system : String)
    (filename : Option String) : List Action × Bool :=
  let fname := derive_filename url filename
  let remote_path := rom_base ++ "/" ++ system ++ "/" ++ fname
  ([Action.createDir system, Action.wget url remote_path],
   o.wgetCode url remote_path == 0)

/-- The local-then-copy branch inlined in `DownloadQueue.process_queue`:
download `item['url']` to `/tmp/<filename>`; only if that returns `True`,
create the remote directory, `transfer_file` the local file (whose SCP
failures are caught and only printed), `os.remove` the local file, and set
`success = True`; otherwise `success = False`. -/
def local_then_copy (o : Oracle) (rom_base : String) (item : QueueItem) : List Action × Bool :=
  let local_path := "/tmp/" ++ item.filename
  if o.downloadOk item.url local_path then
    let remote_path := rom_base ++ "/" ++ item.system ++ "/" ++ item.filename
    ([Action.download item.url local_path, Action.createDir item.system,
      Action.copy local_path remote_path (o.copyOk local_path remote_path),
      Action.removeLocal local_path], true)
  else
    ([Action.download item.url local_path], false)

/-- One iteration of the `for item in pending_items` loop body, up to the
computation of `success`: dispatch on `direct_download`. -/
def process_item (o : Oracle) (rom_base : String) (direct_download : Bool)
    (item : QueueItem) : List Action × Bool :=
  if direct_download then
    download_to_batocera o rom_base item.url item.system (some item.filename)
  else
    local_then_copy o rom_base item

/-- How `process_queue` leaves one queue entry: pending items get
`'completed'` or `'failed'` according to `success`; other items are not
touched. -/
def processedItem (o : Oracle) (rom_base : String) (direct_download : Bool)
    (item : QueueItem) : QueueItem :=
  if item.status = Status.pending then
    { item with
      status := if (process_item o rom_base direct_download item).2
                then Status.completed else Status.failed }
  else item

/-- The `item['status'] == 'pending'` test used to select `pending_items`. -/
def pendingB (i : QueueItem) : Bool := decide (i.status = Status.pending)

/-- Result of a `process_queue` run: final queue and file, the trace of
external calls in order, and the queue/file snapshots taken right after
each per-item `save_queue`. -/
structure ProcessResult where
  queue : List QueueItem
  file : Option Json
  actions : List Action
  snapshots : List DownloadQueue

/-- The `for item in pending_items` loop of `DownloadQueue.process_queue`,
walking the queue with the already-visited prefix in `done`: a pending item
is processed, its status updated in place, and the whole queue saved; other
items are skipped (they are not in `pending_items`). -/
def process_go (o : Oracle) (rom_base : String) (direct_download : Bool)
    (done rest : List QueueItem) (file : Option Json) : ProcessResult :=
  match rest with
  | [] => { queue := done, file := file, actions := [], snapshots := [] }
  | item :: rest' =>
    if item.status = Status.pending then
      let pr := process_item o rom_base direct_download item
      let item' := { item with
        status := if pr.2 then Status.completed else Status.failed }
      let queueNow := done ++ item' :: rest'
      let fileNow := some (encodeQueue queueNow)
      let r := process_go o rom_base direct_download (done ++ [item']) rest' fileNow
      { queue := r.queue, file := r.file, actions := pr.1 ++ r.actions,
        snapshots := { queue := queueNow, file := fileNow } :: r.snapshots }
    else
      process_go o rom_base direct_download (done ++ [item]) rest' file

/-- `DownloadQueue.process_queue(batocera, direct_download)`, run over the
whole queue (the early return when `pending_items` is empty coincides with
the loop doing nothing). -/
def process_queue (o : Oracle) (batocera : BatoceraManager) (direct_download : Bool)
    (s : DownloadQueue) : ProcessResult :=
  process_go o batocera.rom_base_path direct_download [] s.queue s.file

/-- Result of the HTTP request sequence `requests.get` /
`raise_for_status` / `.json()`: either the parsed body or a raised
exception's message. -/
inductive HttpResponse where
  | ok (body : Json)
  | failure (message : String)

/-- `ArchiveOrgSearch.search_roms`: on any exception (transport, HTTP
status, JSON decode, or `.get` on a non-dict) print and return `[]`;
otherwise return `data.get('response', {}).get('docs', [])` (restricted
here to list-shaped `docs` values). The query parameters only shape the
request, which is abstracted into `resp`. -/
def search_roms (_query : String) (_collection : Option String) (_max_results : Nat)
    (resp : HttpResponse) : List Json :=
  match resp with
  | HttpResponse.ok body =>
    match body with
    | Json.obj fields =>
      match (getField fields "response").getD (Json.obj []) with
      | Json.obj rfields =>
        match (getField rfields "docs").getD (Json.arr []) with
        | Json.arr docs => docs
        | _ => []
      | _ => []
    | _ => []
  | HttpResponse.failure _ => []

/-- `ArchiveOrgSearch.get_item_files`: on any exception print and return
`[]`; otherwise return `data.get('files', [])`. -/
def get_item_files (_identifier : String) (resp : HttpResponse) : List Json :=
  match resp with
  | HttpResponse.ok body =>
    match body with
    | Json.obj fields =>
      match (getField fields "files").getD (Json.arr []) with
      | Json.arr files => files
      | _ => []
    | _ => []
  | HttpResponse.failure _ => []

/-- A pending item is updated from its `success` flag. -/
lemma processedItem_of_pending (o : Oracle) (rb : String) (d : Bool) (i : QueueItem)
    (h : i.status = Status.pending) :
    processedItem o rb d i
      = { i with status := if (process_item o rb d i).2 then Status.completed
                           else Status.failed } := by
  rw [processedItem, if_pos h]

/-- A non-pending item is left unchanged. -/
lemma processedItem_of_not_pending (o : Oracle) (rb : String) (d : Bool) (i : QueueItem)
    (h : ¬ i.status = Status.pending) : processedItem o rb d i = i := by
  rw [processedItem, if_neg h]

/-- A list with no pending item is left unchanged by per-item processing. -/
lemma map_processedItem_of_no_pending (o : Oracle) (rb : String) (d : Bool) :
    ∀ l : List QueueItem, l.any pendingB = false → l.map (processedItem o rb d) = l := by
  intro l h
  induction l with
  | nil => rfl
  | cons i t ih =>
    rw [List.any_cons, Bool.or_eq_false_iff] at h
    have h1 : ¬ i.status = Status.pending := by
      have := h.1
      simpa [pendingB] using this
    rw [List.map_cons, processedItem_of_not_pending o rb d i h1, ih h.2]

/-- Characterization of the `process_queue` loop: the final queue is the
item-wise update of the input, the action trace is the in-order
concatenation of the pending items' traces, every snapshot's file holds the
encoding of its queue, and the final file is the last snapshot's (or the
incoming file when nothing was pending). -/
lemma process_go_spec (o : Oracle) (rb : String) (d : Bool) :
    ∀ (rest done : List QueueItem) (file : Option Json),
      (process_go o rb d done rest file).queue = done ++ rest.map (processedItem o rb d) ∧
      (process_go o rb d done rest file).actions
        = (rest.filter pendingB).flatMap (fun i => (process_item o rb d i).1) ∧
      (∀ st ∈ (process_go o rb d done rest file).snapshots,
        st.file = some (encodeQueue st.queue)) ∧
      (process_go o rb d done rest file).file
        = if rest.any pendingB then some (encodeQueue (done ++ rest.map (processedItem o rb d)))
          else file := by
  intro rest
  induction rest with
  | nil => intro done file; simp [process_go]
  | cons item rest ih =>
    intro done file
    by_cases h : item.status = Status.pending
    · have hpB : pendingB item = true := by simp [pendingB, h]
      obtain ⟨ihq, iha, ihs, ihf⟩ :=
        ih (done ++ [processedItem o rb d item])
           (some (encodeQueue (done ++ processedItem o rb d item :: rest)))
      rw [processedItem_of_pending o rb d item h] at ihq iha ihs ihf
      simp only [process_go, if_pos h]
      refine ⟨?_, ?_, ?_, ?_⟩
      · rw [ihq]
        simp [List.map_cons, processedItem_of_pending o rb d item h, List.append_assoc]
      · rw [iha]
        simp [List.filter_cons, hpB]
      · intro st hst
        simp only [List.mem_cons] at hst
        rcases hst with rfl | hst
        · rfl
        · exact ihs st hst
      · rw [ihf]
        by_cases hrest : rest.any pendingB = true
        · simp [hrest, List.any_cons, hpB, List.append_assoc,
                processedItem_of_pending o rb d item h]
        · rw [Bool.not_eq_true] at hrest
          simp [hrest, List.any_cons, hpB, processedItem_of_pending o rb d item h,
                map_processedItem_of_no_pending o rb d rest hrest]
    · have hpB : pendingB item = false := by simp [pendingB, h]
      obtain ⟨ihq, iha, ihs, ihf⟩ := ih (done ++ [item]) file
      simp only [process_go, if_neg h]
      refine ⟨?_, ?_, ?_, ?_⟩
      · rw [ihq]
        simp [List.map_cons, processedItem_of_not_pending o rb d item h, List.append_assoc]
      · rw [iha]
        simp [List.filter_cons, hpB]
      · exact ihs
      · rw [ihf]
        simp [List.any_cons, hpB, List.append_assoc, processedItem_of_not_pending o rb d item h]

/-- Encoding then decoding one item is the identity. -/
lemma decodeItem_encodeItem (i : QueueItem) : decodeItem (encodeItem i) = some i := by
  cases i with
  | mk u sys f st => cases st <;> rfl

/-- Encoding then decoding a list of items is the identity. -/
lemma decodeItems_map_encode (q : List QueueItem) : decodeItems (q.map encodeItem) = some q := by
  induction q with
  | nil => rfl
  | cons i t ih => simp [decodeItems, decodeItem_encodeItem, ih]

/-- Filtering twice with the same predicate equals filtering once. -/
lemma filter_filter_self {α : Type} (p : α → Bool) (l : List α) :
    (l.filter p).filter p = l.filter p := by
  induction l with
  | nil => rfl
  | cons a t ih =>
    by_cases h : p a
    · simp [List.filter_cons, h, ih]
    · simp [List.filter_cons, h, ih]

/-- C1 counterexample: under the local-then-copy strategy, with the local
download succeeding and the SCP copy to the remote failing, the item is
marked `completed`, not `failed` — `process_queue` sets `success = True` as
soon as `download_file` returns `True`, and `transfer_file` swallows the
copy failure. This refutes the claim that any failure of the strategy
yields status `failed`. -/
theorem c1_counterexample :
    let o : Oracle := ⟨fun _ _ => true, fun _ _ => false, fun _ _ => 1⟩
    let b := BatoceraManager.make "192.168.1.100" "root" "linux" 22
    let s : DownloadQueue :=
      ⟨[⟨"https://example.org/download/X/rom.zip", "mame", "rom.zip", Status.pending⟩], none⟩
    (process_queue o b false s).queue
      = [⟨"https://example.org/download/X/rom.zip", "mame", "rom.zip", Status.completed⟩] ∧
    Action.copy "/tmp/rom.zip" "/userdata/roms/mame/rom.zip" false
      ∈ (process_queue o b false s).actions ∧
    ¬ (process_queue o b false s).queue
      = [⟨"https://example.org/download/X/rom.zip", "mame", "rom.zip", Status.failed⟩] :=
  ⟨rfl, by decide, by decide⟩

/-- C1 amended: each pending item's status is set to `completed` exactly
when the strategy call reports success and to `failed` otherwise; however,
the local-then-copy strategy reports success whenever the local download
succeeds, regardless of the copy step's outcome (a copy failure after a
successful download still yields `completed`), while the direct strategy
reports success iff the remote `wget` exits 0. -/
theorem c1_amended (o : Oracle) (b : BatoceraManager) (direct_download : Bool)
    (s : DownloadQueue) :
    (process_queue o b direct_download s).queue
      = s.queue.map (processedItem o b.rom_base_path direct_download) ∧
    (∀ item : QueueItem,
      (process_item o b.rom_base_path false item).2
        = o.downloadOk item.url ("/tmp/" ++ item.filename)) ∧
    (∀ item : QueueItem,
      (process_item o b.rom_base_path true item).2
        = (o.wgetCode item.url
            (b.rom_base_path ++ "/" ++ item.system ++ "/"
              ++ derive_filename item.url (some item.filename)) == 0)) := by
  refine ⟨?_, ?_, ?_⟩
  · have h := (process_go_spec o b.rom_base_path direct_download s.queue [] s.file).1
    simpa [process_queue] using h
  · intro item
    by_cases hd : o.downloadOk item.url ("/tmp/" ++ item.filename) <;>
      simp [process_item, local_then_copy, hd]
  · intro item
    rfl

/-- C2 counterexample: after a failed `connect()` the manager still holds
the freshly created (session-less) paramiko client, so a subsequent
`execute_command` does not hit the `if not self.ssh_client` guard and does
not raise the `ConnectionError` — refuting the claim that the session holds
no partial state and that `execute` before a successful `connect` raises a
connection error. -/
theorem c2_counterexample :
    let m := BatoceraManager.make "192.168.1.100" "root" "linux" 22
    (connect m false).2 = false ∧
    (connect m false).1.ssh_client = some SSHClient.unconnected ∧
    ¬ execute_command (connect m false).1 "ls /userdata/roms" = ExecOutcome.connectionError := by
  decide

/-- C2 amended: a failed `connect()` returns false, but it leaves
`ssh_client` set to the freshly created, unconnected client object (partial
state); a subsequent `execute_command` then bypasses the not-connected
guard and delegates to that unconnected client instead of raising the
`ConnectionError`. Only when no `connect()` was ever attempted
(`ssh_client` is `None`) does `execute_command` raise `ConnectionError`. -/
theorem c2_amended (m : BatoceraManager) (command : String) :
    (connect m false).2 = false ∧
    (connect m false).1.ssh_client = some SSHClient.unconnected ∧
    execute_command (connect m false).1 command = ExecOutcome.delegated SSHClient.unconnected ∧
    (∀ m' : BatoceraManager, m'.ssh_client = none →
      execute_command m' command = ExecOutcome.connectionError) := by
  refine ⟨rfl, rfl, rfl, ?_⟩
  intro m' h
  simp [execute_command, h]

/-- C2 witness: the amended claim at a concrete manager that never
attempted a connection. -/
theorem c2_witness :
    execute_command (BatoceraManager.make "192.168.1.100" "root" "linux" 22) "ls"
      = ExecOutcome.connectionError :=
  (c2_amended (BatoceraManager.make "192.168.1.100" "root" "linux" 22) "ls").2.2.2
    (BatoceraManager.make "192.168.1.100" "root" "linux" 22) rfl

/-- C3: `process_queue` attempts exactly the previously pending items, one
at a time in queue order (the trace is the in-order concatenation of their
individual traces, with no short-circuit after a failure); afterwards every
previously pending item is `completed` or `failed`, and non-pending items
are neither attempted nor changed (so no status reverts to pending). -/
theorem c3_process (o : Oracle) (b : BatoceraManager) (direct_download : Bool)
    (s : DownloadQueue) :
    (process_queue o b direct_download s).queue
      = s.queue.map (processedItem o b.rom_base_path direct_download) ∧
    (process_queue o b direct_download s).actions
      = (s.queue.filter pendingB).flatMap
          (fun i => (process_item o b.rom_base_path direct_download i).1) ∧
    (∀ i ∈ s.queue, i.status = Status.pending →
      (processedItem o b.rom_base_path direct_download i).status = Status.completed ∨
      (processedItem o b.rom_base_path direct_download i).status = Status.failed) ∧
    (∀ i ∈ s.queue, ¬ i.status = Status.pending →
      processedItem o b.rom_base_path direct_download i = i) := by
  obtain ⟨hq, ha, _, _⟩ := process_go_spec o b.rom_base_path direct_download s.queue [] s.file
  refine ⟨by simpa [process_queue] using hq, by simpa [process_queue] using ha, ?_, ?_⟩
  · intro i _ hi
    rw [processedItem_of_pending o b.rom_base_path direct_download i hi]
    by_cases hs : (process_item o b.rom_base_path direct_download i).2 <;> simp [hs]
  · intro i _ hi
    exact processedItem_of_not_pending o b.rom_base_path direct_download i hi

/-- C3 witness: the per-item clauses at a concrete queue holding one
pending and one completed item. -/
theorem c3_witness :
    let o : Oracle := ⟨fun _ _ => true, fun _ _ => true, fun _ _ => 0⟩
    let b := BatoceraManager.make "192.168.1.100" "root" "linux" 22
    let i1 : QueueItem := ⟨"u1", "mame", "a.zip", Status.pending⟩
    let i2 : QueueItem := ⟨"u2", "mame", "b.zip", Status.completed⟩
    ((processedItem o b.rom_base_path true i1).status = Status.completed ∨
     (processedItem o b.rom_base_path true i1).status = Status.failed) ∧
    processedItem o b.rom_base_path true i2 = i2 :=
  ⟨(c3_process ⟨fun _ _ => true, fun _ _ => true, fun _ _ => 0⟩
      (BatoceraManager.make "192.168.1.100" "root" "linux" 22) true
      ⟨[⟨"u1", "mame", "a.zip", Status.pending⟩, ⟨"u2", "mame", "b.zip", Status.completed⟩],
        none⟩).2.2.1
      ⟨"u1", "mame", "a.zip", Status.pending⟩ (by decide) rfl,
   (c3_process ⟨fun _ _ => true, fun _ _ => true, fun _ _ => 0⟩
      (BatoceraManager.make "192.168.1.100" "root" "linux" 22) true
      ⟨[⟨"u1", "mame", "a.zip", Status.pending⟩, ⟨"u2", "mame", "b.zip", Status.completed⟩],
        none⟩).2.2.2
      ⟨"u2", "mame", "b.zip", Status.completed⟩ (by decide) (by decide)⟩

/-- C4: every mutating queue operation persists the full current item list:
after `add` and after `clear_completed` the file holds the encoding of the
in-memory queue; during `process_queue` the file holds the encoding of the
current queue right after every processed item (each snapshot); and if the
file matched the queue before `process_queue`, it matches the final queue
afterwards as well. -/
theorem c4_persist (s : DownloadQueue) (url system : String) (filename : Option String)
    (o : Oracle) (b : BatoceraManager) (direct_download : Bool) :
    (add s url system filename).file
      = some (encodeQueue (add s url system filename).queue) ∧
    (clear_completed s).file = some (encodeQueue (clear_completed s).queue) ∧
    (∀ st ∈ (process_queue o b direct_download s).snapshots,
      st.file = some (encodeQueue st.queue)) ∧
    (s.file = some (encodeQueue s.queue) →
      (process_queue o b direct_download s).file
        = some (encodeQueue (process_queue o b direct_download s).queue)) := by
  obtain ⟨hq, _, hs, hf⟩ := process_go_spec o b.rom_base_path direct_download s.queue [] s.file
  refine ⟨rfl, rfl, ?_, ?_⟩
  · intro st hst
    exact hs st (by simpa [process_queue] using hst)
  · intro hpers
    simp only [process_queue]
    rw [hf, hq]
    by_cases hany : s.queue.any pendingB
    · simp [hany]
    · rw [Bool.not_eq_true] at hany
      simp [hany, map_processedItem_of_no_pending o b.rom_base_path direct_download s.queue hany,
            hpers]

/-- C4 witness: the final-state clause at a concrete consistent state with
one pending item. -/
theorem c4_witness :
    let s : DownloadQueue :=
      ⟨[⟨"u", "mame", "a.zip", Status.pending⟩],
        some (encodeQueue [⟨"u", "mame", "a.zip", Status.pending⟩])⟩
    let o : Oracle := ⟨fun _ _ => true, fun _ _ => true, fun _ _ => 0⟩
    let b := BatoceraManager.make "192.168.1.100" "root" "linux" 22
    (process_queue o b true s).file = some (encodeQueue (process_queue o b true s).queue) :=
  (c4_persist
    ⟨[⟨"u", "mame", "a.zip", Status.pending⟩],
      some (encodeQueue [⟨"u", "mame", "a.zip", Status.pending⟩])⟩
    "u2" "mame" none ⟨fun _ _ => true, fun _ _ => true, fun _ _ => 0⟩
    (BatoceraManager.make "192.168.1.100" "root" "linux" 22) true).2.2.2 rfl

/-- C5: `add` appends a new item at the end of the queue with status
`pending`, taking the supplied (non-empty) filename verbatim and deriving
the filename from the URL's last path segment when omitted; the result is
persisted, `add` is total (it never fails, malformed URLs included), and
when the URL has no path the derived filename degrades to the empty
string. -/
theorem c5_add (s : DownloadQueue) (url system : String) :
    (∀ f : String, ¬ f = "" →
      (add s url system (some f)).queue
        = s.queue ++ [{ url := url, system := system, filename := f,
                        status := Status.pending }]) ∧
    (add s url system none).queue
      = s.queue ++ [{ url := url, system := system,
                      filename := basename (urlparse_path url), status := Status.pending }] ∧
    (add s url system none).file = some (encodeQueue ((add s url system none).queue)) ∧
    (urlparse_path url = "" →
      (add s url system none).queue
        = s.queue ++ [{ url := url, system := system, filename := "",
                        status := Status.pending }]) := by
  refine ⟨?_, rfl, rfl, ?_⟩
  · intro f hf
    simp [add, save_queue, derive_filename, hf]
  · intro hp
    have hb : basename "" = "" := rfl
    simp [add, save_queue, derive_filename, hp, hb]

/-- C5 witness: a supplied filename is stored verbatim, a URL with an empty
path yields filename `""`, and the documented scenario URL yields
`rom.zip`. -/
theorem c5_witness :
    (add ⟨[], none⟩ "https://example.org" "mame" (some "custom.zip")).queue
      = [⟨"https://example.org", "mame", "custom.zip", Status.pending⟩] ∧
    (add ⟨[], none⟩ "https://example.org" "mame" none).queue
      = [⟨"https://example.org", "mame", "", Status.pending⟩] ∧
    (add ⟨[], none⟩ "https://example.org/download/X/rom.zip" "mame" none).queue
      = [⟨"https://example.org/download/X/rom.zip", "mame", "rom.zip", Status.pending⟩] := by
  refine ⟨?_, ?_, ?_⟩
  · have h := (c5_add ⟨[], none⟩ "https://example.org" "mame").1 "custom.zip" (by decide)
    simpa using h
  · have h := (c5_add ⟨[], none⟩ "https://example.org" "mame").2.2.2 (by decide)
    simp only [List.nil_append] at h
    exact h
  · have h := (c5_add ⟨[], none⟩ "https://example.org/download/X/rom.zip" "mame").2.1
    rw [h]
    decide

/-- C6: `clear_completed` removes exactly the completed items: no completed
item survives, every pending or failed item is retained, the surviving
items keep their original relative order (the result is a sublist), and the
operation is idempotent. -/
theorem c6_clear_completed (s : DownloadQueue) :
    (∀ i ∈ (clear_completed s).queue, ¬ i.status = Status.completed) ∧
    (∀ i ∈ s.queue, ¬ i.status = Status.completed → i ∈ (clear_completed s).queue) ∧
    List.Sublist (clear_completed s).queue s.queue ∧
    clear_completed (clear_completed s) = clear_completed s := by
  refine ⟨?_, ?_, ?_, ?_⟩
  · intro i hi
    simp only [clear_completed, save_queue] at hi
    have := List.of_mem_filter hi
    simpa using this
  · intro i hi hnc
    simp only [clear_completed, save_queue]
    exact List.mem_filter.mpr ⟨hi, by simpa using hnc⟩
  · exact List.filter_sublist (p := fun i => decide (i.status ≠ Status.completed)) s.queue
  · simp [clear_completed, save_queue, filter_filter_self]

/-- C6 witness: on a queue with one completed and one failed item, the
failed item is retained and a second `clear_completed` changes nothing. -/
theorem c6_witness :
    let ic : QueueItem := ⟨"u1", "mame", "a.zip", Status.completed⟩
    let ifl : QueueItem := ⟨"u2", "mame", "b.zip", Status.failed⟩
    let s : DownloadQueue := ⟨[ic, ifl], none⟩
    ifl ∈ (clear_completed s).queue ∧
    clear_completed (clear_completed s) = clear_completed s :=
  ⟨(c6_clear_completed
      ⟨[⟨"u1", "mame", "a.zip", Status.completed⟩, ⟨"u2", "mame", "b.zip", Status.failed⟩],
        none⟩).2.1
      ⟨"u2", "mame", "b.zip", Status.failed⟩ (by decide) (by decide),
   (c6_clear_completed
      ⟨[⟨"u1", "mame", "a.zip", Status.completed⟩, ⟨"u2", "mame", "b.zip", Status.failed⟩],
        none⟩).2.2.2⟩

/-- C7: persistence round-trip — saving any queue and loading the saved
file yields exactly the same ordered item sequence (same fields, same
values, same order). -/
theorem c7_round_trip (q : List QueueItem) (f : Option Json) :
    load_queue (save_queue ⟨q, f⟩).file = some q := by
  show load_queue (some (encodeQueue q)) = some q
  simp [load_queue, decodeQueue, encodeQueue, decodeItems_map_encode q]

/-- C8: under the local-then-copy strategy, a failed local download leaves
a trace with the download attempt only (no remote directory creation, no
copy, no temporary-file removal); after a successful download the local
temporary file is removed, and both the success flag and the presence of
the removal are unaffected by the copy step's outcome. -/
theorem c8_local_then_copy (o : Oracle) (rom_base : String) (item : QueueItem) :
    (o.downloadOk item.url ("/tmp/" ++ item.filename) = false →
      (local_then_copy o rom_base item).1
        = [Action.download item.url ("/tmp/" ++ item.filename)]) ∧
    (o.downloadOk item.url ("/tmp/" ++ item.filename) = true →
      Action.removeLocal ("/tmp/" ++ item.filename) ∈ (local_then_copy o rom_base item).1) ∧
    (∀ c : String → String → Bool,
      (local_then_copy { o with copyOk := c } rom_base item).2
        = (local_then_copy o rom_base item).2 ∧
      (Action.removeLocal ("/tmp/" ++ item.filename)
          ∈ (local_then_copy { o with copyOk := c } rom_base item).1 ↔
       Action.removeLocal ("/tmp/" ++ item.filename)
          ∈ (local_then_copy o rom_base item).1)) := by
  refine ⟨?_, ?_, ?_⟩
  · intro h
    simp [local_then_copy, h]
  · intro h
    simp [local_then_copy, h]
  · intro c
    by_cases h : o.downloadOk item.url ("/tmp/" ++ item.filename) <;>
      simp [local_then_copy, h]

/-- C8 witness: both download outcomes at a concrete item — a failed
download leaves only the download attempt in the trace, and a successful
download with a failing copy still removes the temporary file. -/
theorem c8_witness :
    (local_then_copy ⟨fun _ _ => false, fun _ _ => true, fun _ _ => 0⟩ "/userdata/roms"
        ⟨"u", "mame", "a.zip", Status.pending⟩).1
      = [Action.download "u" ("/tmp/" ++ "a.zip")] ∧
    Action.removeLocal ("/tmp/" ++ "a.zip")
      ∈ (local_then_copy ⟨fun _ _ => true, fun _ _ => false, fun _ _ => 0⟩ "/userdata/roms"
          ⟨"u", "mame", "a.zip", Status.pending⟩).1 :=
  ⟨(c8_local_then_copy ⟨fun _ _ => false, fun _ _ => true, fun _ _ => 0⟩ "/userdata/roms"
      ⟨"u", "mame", "a.zip", Status.pending⟩).1 rfl,
   (c8_local_then_copy ⟨fun _ _ => true, fun _ _ => false, fun _ _ => 0⟩ "/userdata/roms"
      ⟨"u", "mame", "a.zip", Status.pending⟩).2.1 rfl⟩

/-- C9: on any request failure (transport error, HTTP error status, or
JSON decode error) both `search_roms` and `get_item_files` return the empty
list to the caller instead of propagating the exception. -/
theorem c9_failure_empty (query identifier : String) (collection : Option String)
    (max_results : Nat) (err : String) :
    search_roms query collection max_results (HttpResponse.failure err) = [] ∧
    get_item_files identifier (HttpResponse.failure err) = [] :=
  ⟨rfl, rfl⟩

/-- C10: supplying the empty string as the filename behaves exactly like
omitting it — Python's `filename or os.path.basename(...)` treats `""` as
falsy, so the stored filename is derived from the URL. -/
theorem c10_empty_filename (s : DownloadQueue) (url system : String) :
    add s url system (some "") = add s url system none := by
  simp [add, derive_filename]

end Arcade
